import Mathlib

/-!
Shallow embedding of the Agremo drone-PDF report extractor
(`src/app/extractor.py`) for verifying the natural-language specification.

Texts are modelled as `List Char` (ASCII semantics: `\s`, `\w`, `\d`,
case folding and `str.lower`/`str.upper` are interpreted over ASCII, which
is faithful for the report texts the extractor targets).  Python floats are
modelled as exact fractions (`Frac`, interpreted into `ℚ` by
`Frac.toRat`).  Each Python regular expression used by
the source is embedded as a specialized matcher with the same backtracking
semantics on the texts it can encounter (leftmost match, greedy character
classes, word boundaries with backtracking on the final class, lazy
captures with explicit terminators).
-/

set_option maxRecDepth 10000

/-- Convert a Lean string literal to the character-list representation. -/
def str (s : String) : List Char := s.toList

/-- ASCII lower-casing of a single character code, as used by `str.lower`. -/
def lowerN (n : Nat) : Nat := if 65 ≤ n ∧ n ≤ 90 then n + 32 else n

/-- ASCII upper-casing of a single character code, as used by `str.upper`. -/
def upperN (n : Nat) : Nat := if 97 ≤ n ∧ n ≤ 122 then n - 32 else n

/-- ASCII lower-casing of a character. -/
def charLower (c : Char) : Char := Char.ofNat (lowerN c.toNat)

/-- ASCII upper-casing of a character. -/
def charUpper (c : Char) : Char := Char.ofNat (upperN c.toNat)

/-- Python `str.lower` on a text. -/
def strLower (t : List Char) : List Char := t.map charLower

/-- Python `str.upper` on a text. -/
def strUpper (t : List Char) : List Char := t.map charUpper

/-- Regex class `\d` (ASCII). -/
def isDigitC (c : Char) : Bool := 48 ≤ c.toNat && c.toNat ≤ 57

/-- Lower-case ASCII letter, the `[a-z]` class. -/
def isLowerAZ (c : Char) : Bool := 97 ≤ c.toNat && c.toNat ≤ 122

/-- Upper-case ASCII letter. -/
def isUpperAZ (c : Char) : Bool := 65 ≤ c.toNat && c.toNat ≤ 90

/-- The class `[a-z]` under the `re.I` flag: any ASCII letter. -/
def isAlphaC (c : Char) : Bool := isLowerAZ c || isUpperAZ c

/-- Regex class `\w` (ASCII): letter, digit or underscore. -/
def isWordC (c : Char) : Bool := isAlphaC c || isDigitC c || c == '_'

/-- Regex class `\s` (ASCII): space, tab, newline, return, vtab, formfeed. -/
def isSpaceC (c : Char) : Bool :=
  c == ' ' || c == '\t' || c == '\n' || c == '\x0d' || c == '\x0b' || c == '\x0c'

/-- The character class `[\d.]` used for numeric captures. -/
def isNumC (c : Char) : Bool := isDigitC c || c == '.'

/-- The class `[\w\s]` of the analysis-name capture group. -/
def isWordSpaceC (c : Char) : Bool := isWordC c || isSpaceC c

/-- Length of the longest run of class characters at the head of a list. -/
def countWhile (p : Char → Bool) : List Char → Nat
  | [] => 0
  | c :: cs => if p c then countWhile p cs + 1 else 0

/-- The substring of `t` starting at index `i` with length `n` (clipped). -/
def sliceStr (t : List Char) (i n : Nat) : List Char := (t.drop i).take n

/-- Longest class run starting at index `i` of `t`. -/
def munch (p : Char → Bool) (t : List Char) (i : Nat) : Nat := countWhile p (t.drop i)

/-- Case-sensitive literal test at index `i` (Python slicing comparison). -/
def litAt (w : List Char) (t : List Char) (i : Nat) : Bool :=
  sliceStr t i w.length == w

/-- Case-insensitive literal test at index `i` (the `re.I` flag). -/
def litAtCI (w : List Char) (t : List Char) (i : Nat) : Bool :=
  strLower (sliceStr t i w.length) == strLower w

/-- Whether the character at index `i` exists and belongs to `\w`. -/
def wordAt (t : List Char) (i : Nat) : Bool :=
  match t.drop i with
  | [] => false
  | c :: _ => isWordC c

/-- The `\b` assertion at index `i`: exactly one side is a word character. -/
def boundaryAt (t : List Char) (i : Nat) : Bool :=
  (if i = 0 then false else wordAt t (i - 1)) != wordAt t i

/-- Python `str.strip`: drop ASCII whitespace from both ends. -/
def stripStr (t : List Char) : List Char :=
  ((t.dropWhile isSpaceC).reverse.dropWhile isSpaceC).reverse

/-- Python `str.find` scanning from index `i` with explicit fuel. -/
def findSubFrom (t pat : List Char) : Nat → Nat → Option Nat
  | _, 0 => none
  | i, fuel + 1 => if litAt pat t i then some i else findSubFrom t pat (i + 1) fuel

/-- Python `str.find`: index of the leftmost occurrence of `pat` in `t`. -/
def findSub (t pat : List Char) : Option Nat := findSubFrom t pat 0 (t.length + 1)

/-- Python `in` on strings: substring containment. -/
def containsSub (t pat : List Char) : Bool := (findSub t pat).isSome

/-- Leftmost-match search (`re.search`): try the matcher at indices
`i, i+1, ...` while fuel lasts, returning the first success with its index. -/
def scanFirst {α : Type} (step : Nat → Option α) : Nat → Nat → Option (Nat × α)
  | _, 0 => none
  | i, fuel + 1 =>
    match step i with
    | some a => some (i, a)
    | none => scanFirst step (i + 1) fuel

/-- Python `re.finditer`: non-overlapping scan; a match at `i` ending at `e`
resumes the scan at `e` (all embedded patterns match at least one
character, so `e > i`). The matcher returns `(endIndex, payload)`. -/
def scanIter {β : Type} (step : Nat → Option (Nat × β)) : Nat → Nat → List (Nat × Nat × β)
  | _, 0 => []
  | i, fuel + 1 =>
    match step i with
    | some (e, b) => (i, e, b) :: scanIter step (max e (i + 1)) fuel
    | none => scanIter step (i + 1) fuel

/-- Consume the case-insensitive literal `w` at `i`, yielding the next index. -/
def eatLitCI (w : List Char) (t : List Char) (i : Nat) : Option Nat :=
  if litAtCI w t i then some (i + w.length) else none

/-- Consume `\s+` at `i` (greedy, at least one). -/
def eatSpaces1 (t : List Char) (i : Nat) : Option Nat :=
  let n := munch isSpaceC t i
  if n = 0 then none else some (i + n)

/-- Consume `\s*` at `i` (greedy, possibly empty). -/
def eatSpaces0 (t : List Char) (i : Nat) : Nat := i + munch isSpaceC t i

/-- Consume `([\d.]+)` at `i` (greedy), yielding next index and capture. -/
def eatNum (t : List Char) (i : Nat) : Option (Nat × List Char) :=
  let n := munch isNumC t i
  if n = 0 then none else some (i + n, sliceStr t i n)

/-- Largest capture length `l ≤ n`, `l ≥ 1`, whose end satisfies `\b` —
the backtracking of a greedy `([\d.]+)` followed by a `\b` assertion. -/
def pickBoundary (t : List Char) (i : Nat) : Nat → Option Nat
  | 0 => none
  | l + 1 => if boundaryAt t (i + l + 1) then some (l + 1) else pickBoundary t i l

/-- Consume `([\d.]+)\b` at `i` with backtracking on the class run. -/
def eatNumBoundary (t : List Char) (i : Nat) : Option (Nat × List Char) :=
  let n := munch isNumC t i
  if n = 0 then none
  else
    match pickBoundary t i n with
    | none => none
    | some l => some (i + l, sliceStr t i l)

/-- Consume literal words separated by `\s+` (case-insensitive), with no
trailing whitespace consumed after the last word. -/
def eatWordsSep : List (List Char) → List Char → Nat → Option Nat
  | [], _, i => some i
  | [w], t, i => eatLitCI w t i
  | w :: ws, t, i =>
    match eatLitCI w t i with
    | none => none
    | some j =>
      match eatSpaces1 t j with
      | none => none
      | some k => eatWordsSep ws t k

/-- Numeric value of a digit string (most significant digit first). -/
def digitsToNat (s : List Char) : Nat := s.foldl (fun a c => a * 10 + (c.toNat - 48)) 0

/-- An exact fraction `num / (d1 + 1)`, the model of a Python float value.
The denominator is stored minus one so that every `Frac` is well-formed;
fractions are kept unreduced so that all arithmetic is free of `Nat.gcd`
and evaluates by kernel reduction. -/
structure Frac where
  num : Int
  d1 : Nat
deriving DecidableEq, Repr

/-- The denominator of a fraction (always positive). -/
def Frac.den (f : Frac) : Nat := f.d1 + 1

/-- The rational value of a fraction. -/
def Frac.toRat (f : Frac) : ℚ := (f.num : ℚ) / (f.den : ℚ)

/-- Build a fraction from a numerator and a positive denominator. -/
def Frac.mk2 (n : Int) (d : Nat) : Frac := ⟨n, d - 1⟩

/-- Exact addition of fractions (cross multiplication, no reduction). -/
def Frac.add (a b : Frac) : Frac :=
  ⟨a.num * (b.den : Int) + b.num * (a.den : Int), a.d1 * b.d1 + a.d1 + b.d1⟩

/-- Zero, the initial value of the summation in
`_calculate_total_from_levels`. -/
def Frac.zero : Frac := ⟨0, 0⟩

/-- Strict positivity of a fraction value (`> 0` in the source). -/
def Frac.isPos (f : Frac) : Bool := 0 < f.num

/-- Python `float()` on a captured `[\d.]+` string: defined when the string
has at least one digit and at most one dot, mirroring the `try/except
ValueError` guards around every `float(...)` call in the source. -/
def parseFloat (s : List Char) : Option Frac :=
  if s.all isNumC && s.any isDigitC && s.count '.' ≤ 1 then
    let ip := s.takeWhile (fun c => !(c == '.'))
    let fp := (s.dropWhile (fun c => !(c == '.'))).drop 1
    some (Frac.mk2 (digitsToNat ip * 10 ^ fp.length + digitsToNat fp) (10 ^ fp.length))
  else none

/-- Severity classes of level rows (`AnalysisTypeConfig.TYPES[..]["levels"]`). -/
inductive Severity where
  | healthy
  | low
  | moderate
  | high
deriving DecidableEq, Repr

/-- One level-rule spec from `AnalysisTypeConfig.TYPES[..]["levels"]`.
Every level pattern in the source has the uniform shape
`\bW1\s+W2\s+...\s+([\d.]+)%\s+([\d.]+)\b`, so a spec stores the literal
words `W1 ... Wk`; `ex` holds the pipe-split `exclude_context` keywords. -/
structure LevelSpec where
  name : List Char
  severity : Severity
  words : List (List Char)
  ex : Option (List (List Char))
deriving DecidableEq, Repr

/-- One analysis-type rule bundle from `AnalysisTypeConfig.TYPES`. -/
structure AConfig where
  keywords : List (List Char)
  totalLabel : List Char
  levels : List LevelSpec
deriving DecidableEq, Repr

/-- The `Fine` level spec of the `plant_stress` bundle. -/
def fineSpec : LevelSpec :=
  { name := str "Fine", severity := .healthy, words := [str "Fine"], ex := none }

/-- The `Potential Plant Stress` level spec of the `plant_stress` bundle. -/
def potentialSpec : LevelSpec :=
  { name := str "Potential Plant Stress", severity := .moderate
    words := [str "Potential", str "Plant", str "Stress"], ex := none }

/-- The `Plant Stress` level spec of the `plant_stress` bundle, guarded
by the exclusion context `potential`. -/
def plantStressSpec : LevelSpec :=
  { name := str "Plant Stress", severity := .high
    words := [str "Plant", str "Stress"], ex := some [str "potential"] }

/-- The `plant_stress` bundle of `AnalysisTypeConfig.TYPES`. -/
def plantStressConfig : AConfig :=
  { keywords := [str "PLANT STRESS", str "Plant Stress"]
    totalLabel := str "total area plant stress:"
    levels := [fineSpec, potentialSpec, plantStressSpec] }

/-- The `flowering` bundle of `AnalysisTypeConfig.TYPES`. -/
def floweringConfig : AConfig :=
  { keywords := [str "FLOWERING", str "Flowering"]
    totalLabel := str "total area flowering:"
    levels :=
      [ { name := str "Full Flowering", severity := .high
          words := [str "Full", str "Flowering"], ex := none }
      , { name := str "Flowering", severity := .moderate
          words := [str "Flowering"], ex := some [str "full", str "no"] }
      , { name := str "No Flowering", severity := .low
          words := [str "No", str "Flowering"], ex := none } ] }

/-- Analysis-type keys, in `TYPES` declaration order. -/
inductive AType where
  | plant_stress
  | flowering
deriving DecidableEq, Repr

/-- Embedding of `AgremoReportExtractor._detect_analysis_type`: first bundle one of
whose keywords occurs case-insensitively in the text wins. -/
def detect (t : List Char) : Option (AType × AConfig) :=
  let lo := strLower t
  if plantStressConfig.keywords.any (fun k => containsSub lo (strLower k)) then
    some (.plant_stress, plantStressConfig)
  else if floweringConfig.keywords.any (fun k => containsSub lo (strLower k)) then
    some (.flowering, floweringConfig)
  else none

/-- One extracted level row (`levels.append({...})` in `_extract_levels`). -/
structure LevelEntry where
  level : List Char
  severity : Severity
  percentage : Frac
  area_hectares : Frac
deriving DecidableEq, Repr

/-- The level pattern `\bW1\s+...\s+Wk\s+([\d.]+)%\s+([\d.]+)\b` matched at
index `i`, returning the end index and the two captured strings. -/
def matchLevelAt (ws : List (List Char)) (t : List Char) (i : Nat) :
    Option (Nat × List Char × List Char) :=
  if boundaryAt t i then
    match eatWordsSep ws t i with
    | none => none
    | some j =>
      match eatSpaces1 t j with
      | none => none
      | some j2 =>
        match eatNum t j2 with
        | none => none
        | some (j3, c1) =>
          match eatLitCI [.mk 37 (by decide)] t j3 with
          | none => none
          | some j4 =>
            match eatSpaces1 t j4 with
            | none => none
            | some j5 =>
              match eatNumBoundary t j5 with
              | none => none
              | some (j6, c2) => some (j6, c1, c2)
  else none

/-- Lower-cased 20-character window immediately preceding index `i`
(`full_text_spaced[max(0, start-20):start].lower()`). -/
def ctxLower (t : List Char) (i : Nat) : List Char :=
  strLower (sliceStr t (i - 20) (min 20 i))

/-- The exclusion guard of `_extract_levels`: keep a match at `i` unless a
guard keyword occurs in the 20 characters before it. -/
def passGuard (s : LevelSpec) (t : List Char) (i : Nat) : Bool :=
  match s.ex with
  | none => true
  | some kws => !(kws.any (fun kw => containsSub (ctxLower t i) kw))

/-- All guard-surviving matches of a level spec, in text order
(`re.finditer` plus the exclude-context filter). -/
def filteredMatches (s : LevelSpec) (t : List Char) : List (Nat × Nat × List Char × List Char) :=
  (scanIter (matchLevelAt s.words t) 0 (t.length + 1)).filter (fun m => passGuard s t m.1)

/-- Deduplication key `f"{level_name}_{group(1)}_{group(2)}"`. -/
def entryKey (nm c1 c2 : List Char) : List Char := nm ++ '_' :: c1 ++ '_' :: c2

/-- Process one spec's matches against the shared `seen` set: skip keys
already seen, record fresh keys, and emit an entry when both captures
parse as floats (`_extract_levels` inner loop). -/
def processMatches (nm : List Char) (sv : Severity) :
    List (Nat × Nat × List Char × List Char) → List (List Char) →
    (List LevelEntry × List (List Char))
  | [], seen => ([], seen)
  | (_, _, c1, c2) :: ms, seen =>
    let key := entryKey nm c1 c2
    if seen.contains key then processMatches nm sv ms seen
    else
      let seen2 := key :: seen
      match parseFloat c1, parseFloat c2 with
      | some p, some h =>
        let r := processMatches nm sv ms seen2
        ({ level := nm, severity := sv, percentage := p, area_hectares := h } :: r.1, r.2)
      | _, _ => processMatches nm sv ms seen2

/-- Run the specs in configuration order, threading the `seen` set. -/
def goSpecs : List LevelSpec → List (List Char) → List Char →
    (List LevelEntry × List (List Char))
  | [], seen, _ => ([], seen)
  | s :: ss, seen, t =>
    let r1 := processMatches s.name s.severity (filteredMatches s t) seen
    let r2 := goSpecs ss r1.2 t
    (r1.1 ++ r2.1, r2.2)

/-- Embedding of `AgremoReportExtractor._extract_levels` on the flat text. -/
def extractLevels (cfg : AConfig) (t : List Char) : List LevelEntry :=
  (goSpecs cfg.levels [] t).1

/-- The final deduplication-key set computed by `_extract_levels`. -/
def extractLevelsSeen (cfg : AConfig) (t : List Char) : List (List Char) :=
  (goSpecs cfg.levels [] t).2

/-- The crop dictionary alternation
`(?:sugar\s+beet|wheat|corn|soybean|rice|barley|potato|tomato|cotton|canola|tobacco)`,
each alternative as its literal words joined by `\s+`. -/
def cropDict : List (List (List Char)) :=
  [ [str "sugar", str "beet"], [str "wheat"], [str "corn"], [str "soybean"]
  , [str "rice"], [str "barley"], [str "potato"], [str "tomato"]
  , [str "cotton"], [str "canola"], [str "tobacco"] ]

/-- The stop list `excluded_words` of `_extract_crop`. -/
def excludedWords : List (List Char) :=
  [ str "total", str "area", str "stress", str "field", str "growing", str "stage"
  , str "analysis", str "name", str "plant", str "health", str "monitoring"
  , str "flowering" ]

/-- First alternative of the crop dictionary matching at `i` (regex
alternation tries alternatives left to right at each start position). -/
def cropAltAt (s : List Char) (i : Nat) : Option Nat :=
  cropDict.firstM (fun ws => eatWordsSep ws s i)

/-- Crop pattern 2, `([a-z]+\s+[a-z]+)` under `re.I`, matched at `i`. -/
def cropTwoWordsAt (s : List Char) (i : Nat) : Option Nat :=
  let l1 := munch isAlphaC s i
  if l1 = 0 then none
  else
    let sp := munch isSpaceC s (i + l1)
    if sp = 0 then none
    else
      let l2 := munch isAlphaC s (i + l1 + sp)
      if l2 = 0 then none else some (i + l1 + sp + l2)

/-- Crop pattern 3, `([a-z]{4,})` under `re.I`, matched at `i`. -/
def cropLongWordAt (s : List Char) (i : Nat) : Option Nat :=
  let l := munch isAlphaC s i
  if 4 ≤ l then some (i + l) else none

/-- Candidate acceptance in `_extract_crop`: non-empty after strip and its
lower-casing not in the stop list. -/
def acceptCrop (c : List Char) : Bool :=
  !c.isEmpty && !(excludedWords.contains (strLower c))

/-- Run one crop pattern over the window: on a match, accept or reject the
stripped candidate (a rejected candidate moves on to the next pattern,
mirroring the `break` placement in `_extract_crop`). -/
def cropTryPattern (s : List Char) (pat : List Char → Nat → Option Nat) :
    Option (Option (List Char)) :=
  match scanFirst (pat s) 0 (s.length + 1) with
  | none => none
  | some (i, e) =>
    let c := stripStr (sliceStr s i (e - i))
    if acceptCrop c then some (some c) else some none

/-- Run the crop patterns in order: the first whose leftmost match yields
an accepted candidate wins; a match with a rejected candidate moves on to
the next pattern. -/
def cropCascade (s : List Char) : List (List Char → Nat → Option Nat) → Option (List Char)
  | [] => none
  | pat :: rest =>
    match cropTryPattern s pat with
    | some (some c) => some c
    | _ => cropCascade s rest

/-- Embedding of `AgremoReportExtractor._extract_crop` on the flat text. -/
def extractCrop (t : List Char) : Option (List Char) :=
  match findSub t (str "Crop:") with
  | none => none
  | some p =>
    cropCascade (strLower (sliceStr t (p + 5) 200))
      [cropAltAt, cropTwoWordsAt, cropLongWordAt]

/-- The pattern `BBCH\s*\d+|BBCH\d+` under `re.I` at index `i` (the second
alternative is subsumed by the first); yields the end index. -/
def bbchAt (t : List Char) (i : Nat) : Option Nat :=
  match eatLitCI (str "BBCH") t i with
  | none => none
  | some j =>
    let k := eatSpaces0 t j
    let d := munch isDigitC t k
    if d = 0 then none else some (k + d)

/-- Embedding of `AgremoReportExtractor._extract_growing_stage`: label-window search
with a whole-text fallback when the window has no BBCH token. -/
def extractStage (t : List Char) : Option (List Char) :=
  match findSub t (str "Growing stage:") with
  | none => none
  | some p =>
    let w := sliceStr t p 100
    match scanFirst (bbchAt w) 0 (w.length + 1) with
    | some (i, e) => some (stripStr (sliceStr w i (e - i)))
    | none =>
      match scanFirst (bbchAt t) 0 (t.length + 1) with
      | some (i, e) => some (stripStr (sliceStr t i (e - i)))
      | none => none

/-- The pattern `([\d.]+)\s*Hectare` under `re.I` at index `i`; yields the
end index and the numeric capture. -/
def numHectareAt (t : List Char) (i : Nat) : Option (Nat × List Char) :=
  match eatNum t i with
  | none => none
  | some (j, c) =>
    match eatLitCI (str "Hectare") t (eatSpaces0 t j) with
    | none => none
    | some e => some (e, c)

/-- Embedding of `AgremoReportExtractor._extract_field_area`: with the label present
only its 100-character window is searched; the whole-text search runs only
when the label is absent. -/
def extractFieldArea (t : List Char) : Option Frac :=
  match findSub t (str "Field area:") with
  | some p =>
    let w := sliceStr t p 100
    match scanFirst (numHectareAt w) 0 (w.length + 1) with
    | some (_, _, c) => parseFloat c
    | none => none
  | none =>
    match scanFirst (numHectareAt t) 0 (t.length + 1) with
    | some (_, _, c) => parseFloat c
    | none => none

/-- The pattern `([\d.]+)\s*ha\s*=\s*([\d.]+)%\s*field` under `re.I` at
index `i`; yields the end index and the two captures. -/
def haEqPctAt (t : List Char) (i : Nat) : Option (Nat × List Char × List Char) :=
  match eatNum t i with
  | none => none
  | some (j, c1) =>
    match eatLitCI (str "ha") t (eatSpaces0 t j) with
    | none => none
    | some j2 =>
      match eatLitCI (str "=") t (eatSpaces0 t j2) with
      | none => none
      | some j3 =>
        match eatNum t (eatSpaces0 t j3) with
        | none => none
        | some (j4, c2) =>
          match eatLitCI (str "%") t j4 with
          | none => none
          | some j5 =>
            match eatLitCI (str "field") t (eatSpaces0 t j5) with
            | none => none
            | some e => some (e, c1, c2)

/-- The pattern `([\d.]+)%\s*field` under `re.I` at index `i`. -/
def pctFieldAt (t : List Char) (i : Nat) : Option (Nat × List Char) :=
  match eatNum t i with
  | none => none
  | some (j, c) =>
    match eatLitCI (str "%") t j with
    | none => none
    | some j2 =>
      match eatLitCI (str "field") t (eatSpaces0 t j2) with
      | none => none
      | some e => some (e, c)

/-- The pair (total_area_hectares, total_area_percent) being filled in. -/
abbrev TotalState := Option Frac × Option Frac

/-- Apply a `<num> ha = <num>% field` match: hectares is assigned before
percent is parsed, so a percent parse failure still leaves hectares set
(the assignment precedes the raised `ValueError` in the source). The flag
reports whether the `return` was reached. -/
def applyHaEqCaps (st : TotalState) (c1 c2 : List Char) : TotalState × Bool :=
  match parseFloat c1 with
  | none => (st, false)
  | some v1 =>
    match parseFloat c2 with
    | none => ((some v1, st.2), false)
    | some v2 => ((some v1, some v2), true)

/-- Apply a `<num>% field` match to the percent component. -/
def applyPctCap (st : TotalState) (c : List Char) : TotalState × Bool :=
  match parseFloat c with
  | none => (st, false)
  | some v => ((st.1, some v), true)

/-- One `<num> ha = <num>% field` search step over a text region: apply
the leftmost match to the state, or leave it unchanged. -/
def totalStep1 (st : TotalState) (txt : List Char) : TotalState × Bool :=
  match scanFirst (haEqPctAt txt) 0 (txt.length + 1) with
  | some (_, _, c1, c2) => applyHaEqCaps st c1 c2
  | none => (st, false)

/-- One `<num>% field` search step over a text region. -/
def totalStep2 (st : TotalState) (txt : List Char) : TotalState × Bool :=
  match scanFirst (pctFieldAt txt) 0 (txt.length + 1) with
  | some (_, _, c) => applyPctCap st c
  | none => (st, false)

/-- Fallback steps of `_extract_total_area`: whole-text
`<num> ha = <num>% field`, then whole-text `<num>% field`. -/
def totalFallback (st : TotalState) (lowerT : List Char) : TotalState :=
  let r1 := totalStep1 st lowerT
  if r1.2 then r1.1
  else (totalStep2 r1.1 lowerT).1

/-- Embedding of `AgremoReportExtractor._extract_total_area` on the lower-cased flat
text, starting from the freshly initialized (unset, unset) state. -/
def extractTotalArea (cfgO : Option AConfig) (lowerT : List Char) : TotalState :=
  match cfgO with
  | none => (none, none)
  | some cfg =>
    match findSub lowerT cfg.totalLabel with
    | some p =>
      let after := sliceStr lowerT p 200
      let r1 := totalStep1 (none, none) after
      if r1.2 then r1.1
      else
        let r2 := totalStep2 r1.1 after
        if r2.2 then r2.1
        else
          let before := sliceStr lowerT (p - 100) (min 100 p)
          let r3 := totalStep2 r2.1 before
          if r3.2 then r3.1
          else totalFallback r3.1 lowerT
    | none => totalFallback (none, none) lowerT

/-- Whether the character at index `i` exists and satisfies `p`. -/
def classAt (p : Char → Bool) (t : List Char) (i : Nat) : Bool :=
  match t.drop i with
  | [] => false
  | c :: _ => p c

/-- Terminator of the analysis-name capture:
`(?:\s+(?:Growing|Field|STRESS|Total|Additional)|$)` at index `k`. -/
def anTermAt (t : List Char) (k : Nat) : Bool :=
  (let sp := munch isSpaceC t k
   decide (1 ≤ sp) &&
     [str "Growing", str "Field", str "STRESS", str "Total", str "Additional"].any
       (fun w => litAtCI w t (k + sp)))
  || k == t.length

/-- Lazy capture `([\w\s]+?)` from index `j`: the shortest non-empty
class run after which the terminator succeeds. `acc` characters are
already consumed. -/
def lazyCapWS (t : List Char) (j : Nat) : Nat → Nat → Option Nat
  | 0, _ => none
  | fuel + 1, acc =>
    if classAt isWordSpaceC t (j + acc) then
      if anTermAt t (j + acc + 1) then some (acc + 1) else lazyCapWS t j fuel (acc + 1)
    else none

/-- The labeled analysis-name pattern
`Analysis\s+name:\s*([\w\s]+?)(?:\s+(?:Growing|Field|STRESS|Total|Additional)|$)`
under `re.I` at index `i`, yielding the raw capture. -/
def labelAnalysisAt (t : List Char) (i : Nat) : Option (List Char) :=
  match eatLitCI (str "Analysis") t i with
  | none => none
  | some j =>
    match eatSpaces1 t j with
    | none => none
    | some j2 =>
      match eatLitCI (str "name:") t j2 with
      | none => none
      | some j3 =>
        let j4 := eatSpaces0 t j3
        match lazyCapWS t j4 (t.length + 1) 0 with
        | none => none
        | some l => some (sliceStr t j4 l)

/-- The analysis-name value stored by the labeled branch of
`_parse_page1_text` (`None` when the pattern fails or the stripped value
is 50+ characters or contains the sentinel `STRESS LEVEL`). -/
def analysisAccepted (t : List Char) : Option (List Char) :=
  match scanFirst (labelAnalysisAt t) 0 (t.length + 1) with
  | none => none
  | some (_, cap) =>
    let n := stripStr cap
    if containsSub (strUpper n) (str "STRESS LEVEL") then none
    else if n.length < 50 then some n
    else none

/-- First configured keyword contained case-sensitively in the structured
text (the analysis-name fallback loop). -/
def firstKeywordIn (cfg : AConfig) (ft : List Char) : Option (List Char) :=
  cfg.keywords.find? (fun k => containsSub ft k)

/-- Final analysis-name value: the fallback loop runs when the stored
value is falsy (`None` or the empty string) and a type was detected. -/
def analysisNameFinal (an1 : Option (List Char)) (cfgO : Option AConfig)
    (ft : List Char) : Option (List Char) :=
  match cfgO with
  | none => an1
  | some cfg =>
    if an1 = none ∨ an1 = some [] then
      match firstKeywordIn cfg ft with
      | some k => some k
      | none => an1
    else an1

/-- Exactly `n` digit characters at index `i` (`\d{n}`). -/
def exactDigitsAt (t : List Char) (i n : Nat) : Bool :=
  (sliceStr t i n).length == n && (sliceStr t i n).all isDigitC

/-- The pattern `(\d{2}-\d{2}-\d{4})` at index `i`. -/
def dateAt (t : List Char) (i : Nat) : Option (Nat × List Char) :=
  if exactDigitsAt t i 2 && litAt (str "-") t (i + 2) && exactDigitsAt t (i + 3) 2
      && litAt (str "-") t (i + 5) && exactDigitsAt t (i + 6) 4 then
    some (i + 10, sliceStr t i 10)
  else none

/-- The labeled pattern `Survey\s+date:\s*(\d{2}-\d{2}-\d{4})` under `re.I`. -/
def surveyLabelAt (t : List Char) (i : Nat) : Option (Nat × List Char) :=
  match eatLitCI (str "Survey") t i with
  | none => none
  | some j =>
    match eatSpaces1 t j with
    | none => none
    | some j2 =>
      match eatLitCI (str "date:") t j2 with
      | none => none
      | some j3 => dateAt t (eatSpaces0 t j3)

/-- Survey-date rule of `_parse_page1_text`: labeled pattern first, then
any bare `DD-MM-YYYY` token. -/
def surveyDate (t : List Char) : Option (List Char) :=
  match scanFirst (surveyLabelAt t) 0 (t.length + 1) with
  | some (_, _, c) => some c
  | none =>
    match scanFirst (dateAt t) 0 (t.length + 1) with
    | some (_, _, c) => some c
    | none => none

/-- Report-type rule: two independent containment checks where the second
(`Plant Health Monitoring`) overwrites the first. -/
def reportType (ft : List Char) : Option (List Char) :=
  if containsSub ft (str "Plant Health Monitoring") then some (str "Plant Health Monitoring")
  else if containsSub ft (str "Crop Monitoring") then some (str "Crop Monitoring")
  else none

/-- Terminator of the additional-info capture: `(?:\s+Powered|$)`. -/
def aiTermAt (t : List Char) (k : Nat) : Bool :=
  (let sp := munch isSpaceC t k
   decide (1 ≤ sp) && litAtCI (str "Powered") t (k + sp))
  || k == t.length

/-- Lazy capture `(.+?)` with `re.DOTALL` from index `j`: shortest
non-empty run of arbitrary characters after which `aiTermAt` succeeds. -/
def lazyCapAny (t : List Char) (j : Nat) : Nat → Nat → Option Nat
  | 0, _ => none
  | fuel + 1, acc =>
    if classAt (fun _ => true) t (j + acc) then
      if aiTermAt t (j + acc + 1) then some (acc + 1) else lazyCapAny t j fuel (acc + 1)
    else none

/-- The additional-info pattern
`Additional\s+Information\s*\(or\s+recommendation\):\s*(.+?)(?:\s+Powered|$)`
under `re.I | re.DOTALL` at index `i`. -/
def addInfoAt (t : List Char) (i : Nat) : Option (List Char) :=
  match eatLitCI (str "Additional") t i with
  | none => none
  | some j =>
    match eatSpaces1 t j with
    | none => none
    | some j2 =>
      match eatLitCI (str "Information") t j2 with
      | none => none
      | some j3 =>
        match eatLitCI (str "(or") t (eatSpaces0 t j3) with
        | none => none
        | some j4 =>
          match eatSpaces1 t j4 with
          | none => none
          | some j5 =>
            match eatLitCI (str "recommendation):") t j5 with
            | none => none
            | some j6 =>
              let j7 := eatSpaces0 t j6
              match lazyCapAny t j7 (t.length + 1) 0 with
              | none => none
              | some l => some (sliceStr t j7 l)

/-- Embedding of `AgremoReportExtractor._extract_additional_info`. -/
def extractAdditionalInfo (ft sp : List Char) : Option (List Char) :=
  if containsSub ft (str "Test comment") then some (str "Test comment")
  else
    match scanFirst (addInfoAt sp) 0 (sp.length + 1) with
    | none => none
    | some (_, cap) =>
      let c := stripStr cap
      if containsSub c (str "Test comment") then some (str "Test comment")
      else if c.length < 200 then some c
      else none

/-- The `report` section of the result structure. -/
structure ReportSec where
  type_ : Option (List Char)
  survey_date : Option (List Char)
  analysis_name : Option (List Char)
  detected_analysis_type : Option AType
deriving DecidableEq, Repr

/-- The `field` section of the result structure. -/
structure FieldSec where
  crop : Option (List Char)
  growing_stage : Option (List Char)
  area_hectares : Option Frac
deriving DecidableEq, Repr

/-- The `weed_analysis` section of the result structure. -/
structure WeedSec where
  total_area_hectares : Option Frac
  total_area_percent : Option Frac
  levels : List LevelEntry
deriving DecidableEq, Repr

/-- The `map_image` section: the result dictionary with every possibly
absent or `None` key modelled as an `Option` field. -/
structure MapSec where
  source : Option (List Char)
  url : Option (List Char)
  public_id : Option (List Char)
  width : Option Nat
  height : Option Nat
  format : Option (List Char)
  bytes : Option Nat
  error : Option (List Char)
deriving DecidableEq, Repr

/-- The initialized `map_image` section of `_init_result_structure`. -/
def mapInit : MapSec :=
  { source := none, url := none, public_id := none, width := none, height := none
    format := none, bytes := none, error := none }

/-- The assembled result record (`metadata`, which holds only the file
name, a wall-clock timestamp, the page count and a version constant, is
not modelled). -/
structure ReportRecord where
  report : ReportSec
  field : FieldSec
  weed_analysis : WeedSec
  additional_info : Option (List Char)
  map_image : MapSec
deriving DecidableEq, Repr

/-- The freshly initialized result record of `_init_result_structure`. -/
def recordInit : ReportRecord :=
  { report := { type_ := none, survey_date := none, analysis_name := none
                detected_analysis_type := none }
    field := { crop := none, growing_stage := none, area_hectares := none }
    weed_analysis := { total_area_hectares := none, total_area_percent := none, levels := [] }
    additional_info := none
    map_image := mapInit }

/-- Block normalization of `_parse_page1_text`: strip each block text and
keep those longer than three characters. -/
def normBlocks (bs : List (List Char)) : List (List Char) :=
  (bs.map stripStr).filter (fun b => 3 < b.length)

/-- Join texts with a separator character. -/
def joinWith (sep : Char) : List (List Char) → List Char
  | [] => []
  | [b] => b
  | b :: bs => b ++ sep :: joinWith sep bs

/-- The newline-joined structured view (`full_text`). -/
def fullTextOf (bs : List (List Char)) : List Char := joinWith '\n' (normBlocks bs)

/-- The space-joined flat view (`full_text_spaced`). -/
def spacedOf (bs : List (List Char)) : List Char := joinWith ' ' (normBlocks bs)

/-- Embedding of `AgremoReportExtractor._parse_page1_text` over the page-1 blocks. -/
def parsePage1 (bs : List (List Char)) : ReportRecord :=
  let ft := fullTextOf bs
  let sp := spacedOf bs
  let lo := strLower sp
  let det := detect ft
  let cfgO := det.map (fun d => d.2)
  let ts := extractTotalArea cfgO lo
  { report :=
      { type_ := reportType ft
        survey_date := surveyDate sp
        analysis_name := analysisNameFinal (analysisAccepted sp) cfgO ft
        detected_analysis_type := det.map (fun d => d.1) }
    field :=
      { crop := extractCrop sp
        growing_stage := extractStage sp
        area_hectares := extractFieldArea sp }
    weed_analysis :=
      { total_area_hectares := ts.1
        total_area_percent := ts.2
        levels :=
          match cfgO with
          | some cfg => extractLevels cfg sp
          | none => [] }
    additional_info := extractAdditionalInfo ft sp
    map_image := mapInit }

/-- Round-half-even of the value `x * 100` to an integer, the integer part
of Python `round(x, 2)` on the exact-value model of floats. `x * 100` is
`(num * 100) / den`; its floor, remainder and the half comparison are
computed by integer arithmetic against the positive denominator. -/
def rhe100 (x : Frac) : Int :=
  let n := x.num * 100
  let f := Int.fdiv n (x.den : Int)
  let r := n - f * (x.den : Int)
  if 2 * r < (x.den : Int) then f
  else if (x.den : Int) < 2 * r then f + 1
  else if f % 2 = 0 then f
  else f + 1

/-- Python `round(x, 2)` on the exact-value model of floats. -/
def round2 (x : Frac) : Frac := ⟨rhe100 x, 99⟩

/-- Sum of the hectares of entries with severity `high` or `moderate`
(the accumulation loop of `_calculate_total_from_levels`). -/
def sumSignificant (ls : List LevelEntry) : Frac :=
  (ls.filter (fun e => e.severity == .high || e.severity == .moderate)).foldl
    (fun a e => a.add e.area_hectares) Frac.zero

/-- Sum of the hectares of entries whose severity is not `healthy`/`low`. -/
def sumNotHealthyLow (ls : List LevelEntry) : Frac :=
  (ls.filter (fun e => !(e.severity == .healthy || e.severity == .low))).foldl
    (fun a e => a.add e.area_hectares) Frac.zero

/-- Embedding of `AgremoReportExtractor._calculate_total_from_levels` on the
`weed_analysis` section, given the detected analysis type. -/
def calcTotal (atype : Option AType) (w : WeedSec) : WeedSec :=
  if w.total_area_hectares = none ∧ w.levels ≠ [] then
    let s := match atype with
      | some .flowering => sumSignificant w.levels
      | some .plant_stress => sumSignificant w.levels
      | none => sumNotHealthyLow w.levels
    if s.isPos then { w with total_area_hectares := some (round2 s) } else w
  else w

/-- Page-1 parsing followed by the total-area reconciler, as run by
`extract` on any document with at least one page. -/
def pipeline (bs : List (List Char)) : ReportRecord :=
  let r := parsePage1 bs
  { r with weed_analysis := calcTotal r.report.detected_analysis_type r.weed_analysis }

/-- An embedded raster image of a page: its encoded byte size, format
extension and pixel dimensions (the data the locator reads from
`doc.extract_image`). -/
structure EmbImage where
  size : Nat
  ext : List Char
  width : Nat
  height : Nat
deriving DecidableEq, Repr

/-- A PDF page: its text blocks, embedded images, and the dimensions and
byte count of its 150-DPI page rendering (`page.get_pixmap`, which always
yields a raster for a well-formed page). -/
structure Page where
  blocks : List (List Char)
  images : List EmbImage
  renderWidth : Nat
  renderHeight : Nat
  renderByteCount : Nat
deriving DecidableEq, Repr

/-- A parsed PDF document. -/
structure Doc where
  pages : List Page
deriving DecidableEq, Repr

/-- Outcome of the external Cloudinary upload call for one invocation:
either the upload-result dictionary fields or the error string recorded
by `_upload_to_cloudinary`. -/
inductive UploadOutcome where
  | ok (url public_id : List Char) (width height : Option Nat)
      (format : Option (List Char)) (bytes : Option Nat)
  | err (msg : List Char)
deriving DecidableEq, Repr

/-- Python `max(images_data, key=lambda x: x["size"])`: first maximum wins. -/
def largestImage (i0 : EmbImage) (rest : List EmbImage) : EmbImage :=
  rest.foldl (fun a b => if a.size < b.size then b else a) i0

/-- The branch of `_extract_map_image` after image bytes are obtained:
upload, then either the success record (source `cloudinary`, dimensions
from the upload result) or the error record (the local source tag,
dimensions and format plus the upload error). -/
def afterUpload (source fmt : List Char) (w h : Nat) (up : UploadOutcome) : MapSec :=
  match up with
  | .err m =>
    { mapInit with source := some source, error := some m, width := some w
                   height := some h, format := some fmt }
  | .ok url pid uw uh uf ub =>
    { source := some (str "cloudinary"), url := some url, public_id := some pid
      width := uw, height := uh, format := uf, bytes := ub, error := none }

/-- Embedding of `AgremoReportExtractor._extract_map_image` for page index `pnum`,
with the external upload call's outcome supplied as `up`. -/
def extractMapImage (d : Doc) (pnum : Nat) (up : UploadOutcome) : MapSec :=
  match (d.pages.drop pnum).head? with
  | none => { mapInit with error := some (str "Page not found") }
  | some pg =>
    match pg.images with
    | i0 :: rest =>
      let lg := largestImage i0 rest
      if lg.size = 0 then
        { mapInit with error := some (str "Could not extract or render map image") }
      else afterUpload (str "embedded") lg.ext lg.width lg.height up
    | [] =>
      if pg.renderByteCount = 0 then
        { mapInit with error := some (str "Could not extract or render map image") }
      else afterUpload (str "page_render") (str "png") pg.renderWidth pg.renderHeight up

/-- Embedding of `AgremoReportExtractor.extract`: parse page 1 when it exists, run the
reconciler, and extract the map image only when a second page exists. -/
def extract (d : Doc) (up : UploadOutcome) : ReportRecord :=
  let base := match d.pages with
    | [] => recordInit
    | p :: _ => pipeline p.blocks
  if 2 ≤ d.pages.length then { base with map_image := extractMapImage d 1 up }
  else base

/-! ## General lemmas about the embedding -/

/-- Every element of a `scanIter` result is a real match at its index. -/
theorem scanIter_sound {β : Type} (step : Nat → Option (Nat × β)) :
    ∀ (fuel i : Nat) (m : Nat × Nat × β), m ∈ scanIter step i fuel →
      step m.1 = some (m.2.1, m.2.2) := by
  intro fuel
  induction fuel with
  | zero => intro i m hm; simp [scanIter] at hm
  | succ f ih =>
    intro i m hm
    unfold scanIter at hm
    cases hs : step i with
    | some v =>
      rw [hs] at hm
      rw [List.mem_cons] at hm
      rcases hm with rfl | hm
      · simpa using hs
      · exact ih _ _ hm
    | none =>
      rw [hs] at hm
      exact ih _ _ hm

/-- If a `scanIter` result is empty, the matcher fails at every index the
scan covered. -/
theorem scanIter_nil {β : Type} (step : Nat → Option (Nat × β)) :
    ∀ (fuel i : Nat), scanIter step i fuel = [] →
      ∀ j, i ≤ j → j < i + fuel → step j = none := by
  intro fuel
  induction fuel with
  | zero => intro i _ j h1 h2; omega
  | succ f ih =>
    intro i hnil j h1 h2
    unfold scanIter at hnil
    cases hs : step i with
    | some v => rw [hs] at hnil; simp at hnil
    | none =>
      rw [hs] at hnil
      rcases Nat.eq_or_lt_of_le h1 with rfl | hlt
      · exact hs
      · exact ih (i + 1) hnil j hlt (by omega)

/-- A level pattern never matches at an index at or beyond the text end
(the first literal word is non-empty and cannot be found there). -/
theorem matchLevelAt_lt_length (w : List Char) (ws : List (List Char))
    (t : List Char) (p : Nat) (hw : w ≠ []) (r : Nat × List Char × List Char)
    (h : matchLevelAt (w :: ws) t p = some r) : p < t.length := by
  by_contra hge
  have hdrop : t.drop p = [] := List.drop_eq_nil_of_le (by omega)
  have hlit : litAtCI w t p = false := by
    unfold litAtCI sliceStr
    rw [hdrop]
    simp only [List.take_nil]
    cases w with
    | nil => exact absurd rfl hw
    | cons c cs => simp [strLower]
  have heat : eatLitCI w t p = none := by unfold eatLitCI; rw [hlit]; simp
  have hwords : eatWordsSep (w :: ws) t p = none := by
    cases ws with
    | nil => simpa [eatWordsSep] using heat
    | cons w2 ws2 => unfold eatWordsSep; rw [heat]
  unfold matchLevelAt at h
  rw [hwords] at h
  split at h <;> simp at h

/-- Entries emitted for one spec carry its name and severity, and their
numeric fields are parses of the captures of one of the spec's matches. -/
theorem mem_processMatches (nm : List Char) (sv : Severity) :
    ∀ (ms : List (Nat × Nat × List Char × List Char)) (seen : List (List Char))
      (e : LevelEntry), e ∈ (processMatches nm sv ms seen).1 →
      e.level = nm ∧ e.severity = sv ∧
        ∃ m ∈ ms, parseFloat m.2.2.1 = some e.percentage ∧
          parseFloat m.2.2.2 = some e.area_hectares := by
  intro ms
  induction ms with
  | nil => intro seen e he; simp [processMatches] at he
  | cons m ms ih =>
    intro seen e he
    obtain ⟨a, b, c1, c2⟩ := m
    unfold processMatches at he
    by_cases hseen : seen.contains (entryKey nm c1 c2)
    · rw [if_pos hseen] at he
      obtain ⟨h1, h2, mm, hmm, hp⟩ := ih seen e he
      exact ⟨h1, h2, mm, List.mem_cons_of_mem _ hmm, hp⟩
    · rw [if_neg hseen] at he
      cases hp1 : parseFloat c1 with
      | none =>
        rw [hp1] at he
        obtain ⟨h1, h2, mm, hmm, hp⟩ := ih _ e he
        exact ⟨h1, h2, mm, List.mem_cons_of_mem _ hmm, hp⟩
      | some v1 =>
        cases hp2 : parseFloat c2 with
        | none =>
          rw [hp1, hp2] at he
          obtain ⟨h1, h2, mm, hmm, hp⟩ := ih _ e he
          exact ⟨h1, h2, mm, List.mem_cons_of_mem _ hmm, hp⟩
        | some v2 =>
          rw [hp1, hp2] at he
          rw [List.mem_cons] at he
          rcases he with rfl | he
          · exact ⟨rfl, rfl, (a, b, c1, c2), List.mem_cons_self _ _, by simpa using ⟨hp1, hp2⟩⟩
          · obtain ⟨h1, h2, mm, hmm, hp⟩ := ih _ e he
            exact ⟨h1, h2, mm, List.mem_cons_of_mem _ hmm, hp⟩

/-- Every entry produced by a run of specs comes from one of the specs,
with that spec's name and severity and a guard-surviving match of its
pattern whose captures parse to the entry's numeric fields. -/
theorem mem_goSpecs (t : List Char) :
    ∀ (specs : List LevelSpec) (seen : List (List Char)) (e : LevelEntry),
      e ∈ (goSpecs specs seen t).1 →
      ∃ s ∈ specs, e.level = s.name ∧ e.severity = s.severity ∧
        ∃ m ∈ filteredMatches s t, parseFloat m.2.2.1 = some e.percentage ∧
          parseFloat m.2.2.2 = some e.area_hectares := by
  intro specs
  induction specs with
  | nil => intro seen e he; simp [goSpecs] at he
  | cons s ss ih =>
    intro seen e he
    unfold goSpecs at he
    rcases List.mem_append.mp he with h1 | h2
    · obtain ⟨hl, hs, mm, hmm, hp⟩ := mem_processMatches s.name s.severity _ seen e h1
      exact ⟨s, List.mem_cons_self _ _, hl, hs, mm, hmm, hp⟩
    · obtain ⟨s2, hs2, hrest⟩ := ih _ e h2
      exact ⟨s2, List.mem_cons_of_mem _ hs2, hrest⟩

/-- Every key in the `seen` set after processing one spec either was
there before or is a key formed from that spec's name. -/
theorem processMatches_keys (nm : List Char) (sv : Severity) :
    ∀ (ms : List (Nat × Nat × List Char × List Char)) (seen : List (List Char))
      (k : List Char), k ∈ (processMatches nm sv ms seen).2 →
      k ∈ seen ∨ ∃ c1 c2, k = entryKey nm c1 c2 := by
  intro ms
  induction ms with
  | nil => intro seen k hk; simp [processMatches] at hk; exact Or.inl hk
  | cons m ms ih =>
    intro seen k hk
    obtain ⟨a, b, c1, c2⟩ := m
    unfold processMatches at hk
    by_cases hseen : seen.contains (entryKey nm c1 c2)
    · rw [if_pos hseen] at hk
      exact ih seen k hk
    · rw [if_neg hseen] at hk
      have key_case : k ∈ entryKey nm c1 c2 :: seen → k ∈ seen ∨ ∃ d1 d2, k = entryKey nm d1 d2 := by
        intro hmem
        rw [List.mem_cons] at hmem
        rcases hmem with rfl | hmem
        · exact Or.inr ⟨c1, c2, rfl⟩
        · exact Or.inl hmem
      cases hp1 : parseFloat c1 with
      | none =>
        rw [hp1] at hk
        rcases ih _ k hk with hmem | hform
        · exact key_case hmem
        · exact Or.inr hform
      | some v1 =>
        cases hp2 : parseFloat c2 with
        | none =>
          rw [hp1, hp2] at hk
          rcases ih _ k hk with hmem | hform
          · exact key_case hmem
          · exact Or.inr hform
        | some v2 =>
          rw [hp1, hp2] at hk
          rcases ih _ k hk with hmem | hform
          · exact key_case hmem
          · exact Or.inr hform

/-- Processing matches preserves distinctness of the `seen` set. -/
theorem processMatches_nodup (nm : List Char) (sv : Severity) :
    ∀ (ms : List (Nat × Nat × List Char × List Char)) (seen : List (List Char)),
      seen.Nodup → (processMatches nm sv ms seen).2.Nodup := by
  intro ms
  induction ms with
  | nil => intro seen h; simpa [processMatches] using h
  | cons m ms ih =>
    intro seen h
    obtain ⟨a, b, c1, c2⟩ := m
    unfold processMatches
    by_cases hseen : seen.contains (entryKey nm c1 c2)
    · rw [if_pos hseen]; exact ih seen h
    · rw [if_neg hseen]
      have hnodup2 : (entryKey nm c1 c2 :: seen).Nodup := by
        refine List.nodup_cons.mpr ⟨?_, h⟩
        intro hmem
        exact hseen (List.elem_iff.mpr hmem)
      cases parseFloat c1 with
      | none => exact ih _ hnodup2
      | some v1 =>
        cases parseFloat c2 with
        | none => exact ih _ hnodup2
        | some v2 => exact ih _ hnodup2

/-- Each emitted entry consumes a fresh deduplication key: the number of
entries plus the previously seen keys never exceeds the final key count. -/
theorem processMatches_len (nm : List Char) (sv : Severity) :
    ∀ (ms : List (Nat × Nat × List Char × List Char)) (seen : List (List Char)),
      (processMatches nm sv ms seen).1.length + seen.length ≤
        (processMatches nm sv ms seen).2.length := by
  intro ms
  induction ms with
  | nil => intro seen; simp [processMatches]
  | cons m ms ih =>
    intro seen
    obtain ⟨a, b, c1, c2⟩ := m
    unfold processMatches
    by_cases hseen : seen.contains (entryKey nm c1 c2)
    · rw [if_pos hseen]; exact ih seen
    · rw [if_neg hseen]
      have hrec := ih (entryKey nm c1 c2 :: seen)
      simp only [List.length_cons] at hrec
      cases parseFloat c1 with
      | none =>
        show (processMatches nm sv ms (entryKey nm c1 c2 :: seen)).1.length + seen.length ≤
          (processMatches nm sv ms (entryKey nm c1 c2 :: seen)).2.length
        omega
      | some v1 =>
        cases parseFloat c2 with
        | none =>
          show (processMatches nm sv ms (entryKey nm c1 c2 :: seen)).1.length + seen.length ≤
            (processMatches nm sv ms (entryKey nm c1 c2 :: seen)).2.length
          omega
        | some v2 =>
          show ({ level := nm, severity := sv, percentage := v1, area_hectares := v2 } ::
              (processMatches nm sv ms (entryKey nm c1 c2 :: seen)).1).length + seen.length ≤
            (processMatches nm sv ms (entryKey nm c1 c2 :: seen)).2.length
          simp only [List.length_cons]
          omega

/-- Running all specs preserves distinctness of the `seen` set. -/
theorem goSpecs_nodup (t : List Char) :
    ∀ (specs : List LevelSpec) (seen : List (List Char)),
      seen.Nodup → (goSpecs specs seen t).2.Nodup := by
  intro specs
  induction specs with
  | nil => intro seen h; simpa [goSpecs] using h
  | cons s ss ih =>
    intro seen h
    unfold goSpecs
    exact ih _ (processMatches_nodup s.name s.severity _ seen h)

/-- Entry count over all specs is bounded by the distinct-key count. -/
theorem goSpecs_len (t : List Char) :
    ∀ (specs : List LevelSpec) (seen : List (List Char)),
      (goSpecs specs seen t).1.length + seen.length ≤ (goSpecs specs seen t).2.length := by
  intro specs
  induction specs with
  | nil => intro seen; simp [goSpecs]
  | cons s ss ih =>
    intro seen
    unfold goSpecs
    have h1 := processMatches_len s.name s.severity (filteredMatches s t) seen
    have h2 := ih (processMatches s.name s.severity (filteredMatches s t) seen).2
    simp only [List.length_append]
    omega

/-- A fresh head match with parsing captures is always emitted. -/
theorem processMatches_head_emit (nm : List Char) (sv : Severity)
    (a b : Nat) (c1 c2 : List Char) (ms : List (Nat × Nat × List Char × List Char))
    (seen : List (List Char)) (v1 v2 : Frac)
    (hseen : seen.contains (entryKey nm c1 c2) = false)
    (hp1 : parseFloat c1 = some v1) (hp2 : parseFloat c2 = some v2) :
    ({ level := nm, severity := sv, percentage := v1, area_hectares := v2 } : LevelEntry) ∈
      (processMatches nm sv ((a, b, c1, c2) :: ms) seen).1 := by
  unfold processMatches
  rw [if_neg (fun hc => Bool.false_ne_true (hseen ▸ hc)), hp1, hp2]
  exact List.mem_cons_self _ _

/-- A parsed float value is non-negative (`[\d.]+` has no sign). -/
theorem parseFloat_nonneg (s : List Char) (f : Frac) (h : parseFloat s = some f) :
    0 ≤ f.toRat := by
  unfold parseFloat at h
  split at h
  · rw [Option.some_inj] at h
    subst h
    unfold Frac.toRat Frac.mk2 Frac.den
    apply div_nonneg
    · positivity
    · positivity
  · simp at h

/-! ## Concrete inputs used by claim theorems -/

/-- The end-to-end example text of the specification. -/
def canonText : List Char :=
  str "Field area: 45.30 Hectare Growing stage: BBCH69 Crop: sugar beet Total area PLANT STRESS: 22.04 ha = 69% field Fine 31% 14.05 Plant Stress 69% 22.04"

/-- The six tokens the end-to-end example requires the text to contain. -/
def c1Tokens : List (List Char) :=
  [ str "Field area: 45.30 Hectare", str "Growing stage: BBCH69", str "Crop: sugar beet"
  , str "Total area PLANT STRESS: 22.04 ha = 69% field", str "Fine 31% 14.05"
  , str "Plant Stress 69% 22.04" ]

/-- The example text preceded by a second field-area phrase: it still
contains all six tokens, but an earlier `Field area:` label wins. -/
def c1BadText : List Char := str "Field area: 1.0 Hectare " ++ canonText

/-- A text whose `Field area:` label is followed by a 100-character window
without a hectare token, while a hectare token occurs later. -/
def c7Text : List Char := str "Field area: " ++ List.replicate 95 'x' ++ str " 45.3 Hectare"

/-- A one-page document. -/
def docOnePage : Doc := ⟨[⟨[str "hello world"], [], 100, 100, 4⟩]⟩

/-- A two-page document whose second page has no embedded images. -/
def docTwoPages : Doc :=
  ⟨[⟨[str "hello world"], [], 100, 100, 4⟩, ⟨[], [], 1275, 1650, 5⟩]⟩

/-- A successful upload outcome. -/
def upOk : UploadOutcome :=
  .ok (str "https://cdn/u") (str "pid") (some 640) (some 480) (some (str "png")) (some 999)

/-- A failed upload outcome. -/
def upErr : UploadOutcome := .err (str "Cloudinary upload failed: timeout")

/-! ## Claim theorems -/

/-- C10: for a one-page PDF, `extract` leaves the `map_image` section
exactly as initialized (every field `None`) and its result does not
depend on the upload collaborator at all. -/
theorem c10_single_page_frame (d : Doc) (u1 u2 : UploadOutcome)
    (h : d.pages.length = 1) :
    (extract d u1).map_image = mapInit ∧ extract d u1 = extract d u2 := by
  obtain ⟨p, hp⟩ := List.length_eq_one.mp h
  constructor
  · simp [extract, hp, pipeline, parsePage1]
  · simp [extract, hp]

/-- Witness for C10 at a concrete one-page document. -/
theorem c10_single_page_frame_witness :
    (extract docOnePage upErr).map_image = mapInit ∧
      extract docOnePage upErr = extract docOnePage upOk :=
  c10_single_page_frame docOnePage upErr upOk (by decide)

/-- C8 counterexample: a valid page index with zero embedded images and a
successful upload yields `source = cloudinary`, not `source =
page_render` as the claim states. -/
theorem c8_counterexample :
    (docTwoPages.pages.drop 1).head? = some ⟨[], [], 1275, 1650, 5⟩ ∧
    (extractMapImage docTwoPages 1 upOk).source = some (str "cloudinary") ∧
    (some (str "cloudinary") : Option (List Char)) ≠ some (str "page_render") := by
  refine ⟨by decide, by decide, by decide⟩

/-- C8 amended: for a valid page index whose page has no embedded images
and a non-empty page rendering, the locator never returns the page-lookup
error (its `source` is always set); on upload failure the result carries
`source = page_render` with the render dimensions and the upload error,
and on upload success it carries `source = cloudinary` with no error. -/
theorem c8_amended (d : Doc) (pn : Nat) (up : UploadOutcome) (pg : Page)
    (h1 : (d.pages.drop pn).head? = some pg) (h2 : pg.images = [])
    (h3 : pg.renderByteCount ≠ 0) :
    (extractMapImage d pn up).source ≠ none ∧
    (∀ m, up = .err m →
      (extractMapImage d pn up).source = some (str "page_render") ∧
      (extractMapImage d pn up).width = some pg.renderWidth ∧
      (extractMapImage d pn up).height = some pg.renderHeight ∧
      (extractMapImage d pn up).error = some m) ∧
    (∀ url pid w hh f b, up = .ok url pid w hh f b →
      (extractMapImage d pn up).source = some (str "cloudinary") ∧
      (extractMapImage d pn up).error = none) := by
  have hred : extractMapImage d pn up =
      afterUpload (str "page_render") (str "png") pg.renderWidth pg.renderHeight up := by
    simp [extractMapImage, h1, h2, h3]
  rw [hred]
  cases up with
  | ok url pid w hh f b =>
    refine ⟨by simp [afterUpload], ?_, ?_⟩
    · intro m hm; exact absurd hm (by simp)
    · intro _ _ _ _ _ _ _; exact ⟨by simp [afterUpload], by simp [afterUpload]⟩
  | err m0 =>
    refine ⟨by simp [afterUpload], ?_, ?_⟩
    · intro m hm
      obtain rfl : m0 = m := by injection hm
      exact ⟨by simp [afterUpload], by simp [afterUpload], by simp [afterUpload],
        by simp [afterUpload]⟩
    · intro _ _ _ _ _ _ hm; exact absurd hm (by simp)

/-- Witness for C8 amended at the concrete two-page document. -/
theorem c8_amended_witness :
    (extractMapImage docTwoPages 1 upErr).source ≠ none ∧
    (∀ m, upErr = .err m →
      (extractMapImage docTwoPages 1 upErr).source = some (str "page_render") ∧
      (extractMapImage docTwoPages 1 upErr).width = some (Page.renderWidth ⟨[], [], 1275, 1650, 5⟩) ∧
      (extractMapImage docTwoPages 1 upErr).height = some (Page.renderHeight ⟨[], [], 1275, 1650, 5⟩) ∧
      (extractMapImage docTwoPages 1 upErr).error = some m) ∧
    (∀ url pid w hh f b, upErr = .ok url pid w hh f b →
      (extractMapImage docTwoPages 1 upErr).source = some (str "cloudinary") ∧
      (extractMapImage docTwoPages 1 upErr).error = none) :=
  c8_amended docTwoPages 1 upErr ⟨[], [], 1275, 1650, 5⟩ (by decide) (by decide) (by decide)

/-- C7 counterexample: the label is present, the 100-character window has
no hectare match, a hectare match exists later in the text — and the rule
leaves the field unset instead of using the whole-text match. -/
theorem c7_counterexample :
    containsSub c7Text (str "Field area:") = true ∧
    (scanFirst (numHectareAt c7Text) 0 (c7Text.length + 1)).isSome = true ∧
    extractFieldArea c7Text = none := by
  refine ⟨by decide, by decide, by decide⟩

/-- C7 amended: when the `Field area:` label is present, only its
100-character window is searched; if that window has no `<number>
Hectare` match the field stays unset — the whole-text fallback runs only
when the label itself is absent. -/
theorem c7_amended (t : List Char) (p : Nat)
    (h1 : findSub t (str "Field area:") = some p)
    (h2 : scanFirst (numHectareAt (sliceStr t p 100)) 0 ((sliceStr t p 100).length + 1) = none) :
    extractFieldArea t = none := by
  unfold extractFieldArea
  rw [h1]
  simp only [h2]

/-- Witness for C7 amended at the concrete text. -/
theorem c7_amended_witness : extractFieldArea c7Text = none :=
  c7_amended c7Text 0 (by decide) (by decide)

/-- A crop candidate accepted by one pattern of the cascade passed the
stop-list test. -/
theorem cropTryPattern_accept (s : List Char) (pat : List Char → Nat → Option Nat)
    (c : List Char) (h : cropTryPattern s pat = some (some c)) : acceptCrop c = true := by
  unfold cropTryPattern at h
  cases hm : scanFirst (pat s) 0 (s.length + 1) with
  | none => rw [hm] at h; exact absurd h (by simp)
  | some v =>
    obtain ⟨i, e⟩ := v
    rw [hm] at h
    simp only [] at h
    by_cases ha : acceptCrop (stripStr (sliceStr s i (e - i)))
    · rw [if_pos ha] at h
      simp only [Option.some_inj] at h
      rw [← h]
      exact ha
    · rw [if_neg ha] at h
      exact absurd h (by simp)

/-- C2 counterexample: for `Crop: Total area x` the crop field is not
left unset — the two-word pattern captures `total area`, which is not a
member of the single-word stop list. -/
theorem c2_counterexample :
    extractCrop (str "Crop: Total area x") = some (str "total area") ∧
    extractCrop (str "Crop: Total area x") ≠ none := by
  exact ⟨by decide, by decide⟩

/-- Every value produced by the crop cascade passed the stop-list test. -/
theorem cropCascade_accept (s : List Char) :
    ∀ (pats : List (List Char → Nat → Option Nat)) (w : List Char),
      cropCascade s pats = some w → acceptCrop w = true := by
  intro pats
  induction pats with
  | nil => intro w h; simp [cropCascade] at h
  | cons pat rest ih =>
    intro w h
    unfold cropCascade at h
    cases h1 : cropTryPattern s pat with
    | some o1 =>
      cases o1 with
      | some c =>
        rw [h1] at h
        simp only [Option.some_inj] at h
        subst h
        exact cropTryPattern_accept _ _ _ h1
      | none =>
        rw [h1] at h
        simp only [] at h
        exact ih w h
    | none =>
      rw [h1] at h
      simp only [] at h
      exact ih w h

/-- C2 amended: the crop rule never accepts a candidate whose lower-casing
equals a stop-list word; a candidate that survives may still be a
multi-word phrase built from stop-list words. -/
theorem c2_amended (t w : List Char) (h : extractCrop t = some w) :
    excludedWords.contains (strLower w) = false := by
  unfold extractCrop at h
  cases hf : findSub t (str "Crop:") with
  | none => rw [hf] at h; exact absurd h (by simp)
  | some p =>
    rw [hf] at h
    simp only [] at h
    have hacc := cropCascade_accept _ _ _ h
    unfold acceptCrop at hacc
    simp only [Bool.and_eq_true, Bool.not_eq_true'] at hacc
    exact hacc.2

/-- Witness for C2 amended: the accepted crop `sugar beet` is not in the
stop list. -/
theorem c2_amended_witness : excludedWords.contains (strLower (str "sugar beet")) = false :=
  c2_amended (str "Crop: sugar beet") (str "sugar beet") (by decide)

/-- For severities drawn from the four-element enumeration, the generic
summation branch coincides with the high/moderate branch. -/
theorem sumNotHealthyLow_eq_sumSignificant (ls : List LevelEntry) :
    sumNotHealthyLow ls = sumSignificant ls := by
  unfold sumNotHealthyLow sumSignificant
  congr 1
  apply List.filter_congr
  intro e _
  cases he : e.severity <;> rfl

/-- C3: whenever the total-area hectares is still unset and at least one
level entry with a significant (high/moderate) severity exists, the
reconciler sets the hectares to the high/moderate sum rounded to two
decimals (provided that sum is positive) and never touches the percent. -/
theorem c3_reconciler (atype : Option AType) (w : WeedSec)
    (h1 : w.total_area_hectares = none)
    (h2 : ∃ e ∈ w.levels, e.severity = .high ∨ e.severity = .moderate)
    (h3 : (sumSignificant w.levels).isPos = true) :
    (calcTotal atype w).total_area_hectares = some (round2 (sumSignificant w.levels)) ∧
    (calcTotal atype w).total_area_percent = w.total_area_percent := by
  have hne : w.levels ≠ [] := by
    rintro hnil
    rw [hnil] at h2
    simp at h2
  cases atype with
  | none =>
    unfold calcTotal
    rw [if_pos ⟨h1, hne⟩]
    simp only [sumNotHealthyLow_eq_sumSignificant]
    rw [if_pos h3]
    exact ⟨rfl, rfl⟩
  | some a =>
    cases a with
    | plant_stress =>
      unfold calcTotal
      rw [if_pos ⟨h1, hne⟩]
      simp only []
      rw [if_pos h3]
      exact ⟨rfl, rfl⟩
    | flowering =>
      unfold calcTotal
      rw [if_pos ⟨h1, hne⟩]
      simp only []
      rw [if_pos h3]
      exact ⟨rfl, rfl⟩

/-- A concrete entry and section for the C3 witness. -/
def c3Entry : LevelEntry := ⟨str "Plant Stress", .high, ⟨10, 0⟩, ⟨3, 0⟩⟩

/-- A weed-analysis section with unset hectares and one high entry. -/
def c3W : WeedSec := ⟨none, some ⟨5, 0⟩, [c3Entry]⟩

/-- Witness for C3 at a concrete section. -/
theorem c3_reconciler_witness :
    (calcTotal (some .plant_stress) c3W).total_area_hectares =
      some (round2 (sumSignificant c3W.levels)) ∧
    (calcTotal (some .plant_stress) c3W).total_area_percent = c3W.total_area_percent :=
  c3_reconciler (some .plant_stress) c3W (by decide) (by decide) (by decide)

/-- C9 counterexample: a text containing only lower-case `plant stress`
is detected as the plant-stress type, no labeled analysis name is
accepted, and yet the analysis name stays unset — not the detected
type's matched keyword, because the fallback containment test is
case-sensitive while detection is case-insensitive. -/
theorem c9_counterexample :
    (pipeline [str "plant stress zone"]).report.detected_analysis_type =
      some .plant_stress ∧
    analysisAccepted (spacedOf [str "plant stress zone"]) = none ∧
    (pipeline [str "plant stress zone"]).report.analysis_name = none := by
  refine ⟨by decide, by decide, by decide⟩

/-- C9 amended: when no labeled analysis name is accepted and a type was
detected, the analysis name becomes the first configured keyword occurring
case-sensitively in the structured text — and stays unset when no keyword
occurs case-sensitively, even though detection matched case-insensitively. -/
theorem c9_amended (bs : List (List Char)) (a : AType) (cfg : AConfig)
    (h1 : analysisAccepted (spacedOf bs) = none)
    (h2 : detect (fullTextOf bs) = some (a, cfg)) :
    (pipeline bs).report.analysis_name = firstKeywordIn cfg (fullTextOf bs) := by
  have hname : (pipeline bs).report.analysis_name =
      analysisNameFinal (analysisAccepted (spacedOf bs))
        ((detect (fullTextOf bs)).map (fun d => d.2)) (fullTextOf bs) := rfl
  rw [hname, h1, h2]
  unfold analysisNameFinal
  simp only [Option.map_some']
  rw [if_pos (Or.inl trivial)]
  cases hk : firstKeywordIn cfg (fullTextOf bs) <;> simp

/-- Witness for C9 amended at a concrete text whose keyword occurs
case-sensitively. -/
theorem c9_amended_witness :
    (pipeline [str "Report for PLANT STRESS zone"]).report.analysis_name =
      firstKeywordIn plantStressConfig (fullTextOf [str "Report for PLANT STRESS zone"]) :=
  c9_amended [str "Report for PLANT STRESS zone"] .plant_stress plantStressConfig
    (by decide) (by decide)

/-- C1 counterexample: a flat text containing all six example tokens but
preceded by another `Field area: 1.0 Hectare` phrase yields hectares 1.0,
not 45.3 — containing the tokens does not determine the outputs. -/
theorem c1_counterexample :
    c1Tokens.all (fun tok => containsSub c1BadText tok) = true ∧
    (pipeline [c1BadText]).field.area_hectares.map Frac.toRat = some (1 : ℚ) ∧
    (pipeline [c1BadText]).field.area_hectares.map Frac.toRat ≠ some ((453 : ℚ) / 10) := by
  have h : (pipeline [c1BadText]).field.area_hectares = some ⟨10, 9⟩ := by decide
  have hv : (pipeline [c1BadText]).field.area_hectares.map Frac.toRat = some (1 : ℚ) := by
    rw [h]
    norm_num [Frac.toRat, Frac.den]
  refine ⟨by decide, hv, ?_⟩
  rw [hv]
  simp only [ne_eq, Option.some_inj]
  norm_num

/-- C1 amended: on the flat text consisting exactly of the example's
tokens in order, the pipeline produces every output the end-to-end
example expects: hectares 45.3, stage BBCH69, crop sugar beet, total
22.04 ha at 69 percent, and exactly the two expected level rows. -/
theorem c1_amended :
    (pipeline [canonText]).field.area_hectares.map Frac.toRat = some ((453 : ℚ) / 10) ∧
    (pipeline [canonText]).field.growing_stage = some (str "BBCH69") ∧
    (pipeline [canonText]).field.crop = some (str "sugar beet") ∧
    (pipeline [canonText]).weed_analysis.total_area_hectares.map Frac.toRat =
      some ((551 : ℚ) / 25) ∧
    (pipeline [canonText]).weed_analysis.total_area_percent.map Frac.toRat = some (69 : ℚ) ∧
    (pipeline [canonText]).weed_analysis.levels.map
        (fun e => (e.level, e.severity, e.percentage.toRat, e.area_hectares.toRat)) =
      [ (str "Fine", Severity.healthy, (31 : ℚ), (281 : ℚ) / 20)
      , (str "Plant Stress", Severity.high, (69 : ℚ), (551 : ℚ) / 25) ] := by
  have h1 : (pipeline [canonText]).field.area_hectares = some ⟨4530, 99⟩ := by decide
  have h4 : (pipeline [canonText]).weed_analysis.total_area_hectares = some ⟨2204, 99⟩ := by
    decide
  have h5 : (pipeline [canonText]).weed_analysis.total_area_percent = some ⟨69, 0⟩ := by decide
  have h6 : (pipeline [canonText]).weed_analysis.levels =
      [ ⟨str "Fine", .healthy, ⟨31, 0⟩, ⟨1405, 99⟩⟩
      , ⟨str "Plant Stress", .high, ⟨69, 0⟩, ⟨2204, 99⟩⟩ ] := by decide
  refine ⟨?_, by decide, by decide, ?_, ?_, ?_⟩
  · rw [h1]; norm_num [Frac.toRat, Frac.den]
  · rw [h4]; norm_num [Frac.toRat, Frac.den]
  · rw [h5]; norm_num [Frac.toRat, Frac.den]
  · rw [h6]; norm_num [Frac.toRat, Frac.den]

/-- C5: two identical `Fine 12.0% 3.0` rows collapse to exactly one
entry; in general the deduplication-key set of one extraction is
duplicate-free and bounds the number of emitted entries. -/
theorem c5_dedup :
    extractLevels plantStressConfig (str "Fine 12.0% 3.0 Fine 12.0% 3.0") =
      [⟨str "Fine", .healthy, ⟨120, 9⟩, ⟨30, 9⟩⟩] ∧
    ∀ (cfg : AConfig) (t : List Char),
      (extractLevelsSeen cfg t).Nodup ∧
      (extractLevels cfg t).length ≤ (extractLevelsSeen cfg t).length := by
  refine ⟨by decide, ?_⟩
  intro cfg t
  refine ⟨goSpecs_nodup t cfg.levels [] List.nodup_nil, ?_⟩
  have h := goSpecs_len t cfg.levels []
  simpa using h

/-- C6 counterexample: the text `total area plant stress: 2 ha = 150%
field` sets `total_area_percent` to 150, outside [0, 100] — no range
check exists in the extractor. -/
theorem c6_counterexample :
    (pipeline [str "total area plant stress: 2 ha = 150% field"]).weed_analysis.total_area_percent.map
        Frac.toRat = some (150 : ℚ) ∧
    ¬((150 : ℚ) ≤ 100) := by
  have h : (pipeline [str "total area plant stress: 2 ha = 150% field"]).weed_analysis.total_area_percent =
      some ⟨150, 0⟩ := by decide
  exact ⟨by rw [h]; norm_num [Frac.toRat, Frac.den], by norm_num⟩

/-- C4: if every `Plant Stress` pattern match in the text is preceded
within 20 characters by the guard keyword `potential` (which holds in
particular when the only such occurrences sit inside `Potential Plant
Stress` rows), and a `Potential Plant Stress` row is present with
parseable numbers, then the extractor emits no severity-high entry and
does emit a `Potential Plant Stress` entry with severity moderate. -/
theorem c4_exclusion_guard (t : List Char)
    (h1 : ∀ p, p < t.length →
      (matchLevelAt [str "Plant", str "Stress"] t p).isSome = true →
      containsSub (ctxLower t p) (str "potential") = true)
    (h2 : ∃ p, p < t.length ∧
      (matchLevelAt [str "Potential", str "Plant", str "Stress"] t p).isSome = true)
    (h3 : ∀ p, p < t.length →
      Option.all (fun r => (parseFloat r.2.1).isSome && (parseFloat r.2.2).isSome)
        (matchLevelAt [str "Potential", str "Plant", str "Stress"] t p) = true) :
    (∀ e ∈ extractLevels plantStressConfig t, e.severity ≠ .high) ∧
    (∃ e ∈ extractLevels plantStressConfig t,
      e.level = str "Potential Plant Stress" ∧ e.severity = .moderate) := by
  have hcfg : plantStressConfig.levels = [fineSpec, potentialSpec, plantStressSpec] := rfl
  constructor
  · intro e he hsev
    unfold extractLevels at he
    obtain ⟨s, hs, hl, hsv, m, hm, hpcts⟩ := mem_goSpecs t plantStressConfig.levels [] e he
    rw [hcfg] at hs
    simp only [List.mem_cons, List.not_mem_nil, or_false] at hs
    rcases hs with rfl | rfl | rfl
    · exact absurd (hsv.symm.trans hsev) (by decide)
    · exact absurd (hsv.symm.trans hsev) (by decide)
    · unfold filteredMatches at hm
      rw [List.mem_filter] at hm
      obtain ⟨hmem, hguard⟩ := hm
      have hsound : matchLevelAt [str "Plant", str "Stress"] t m.1 =
          some (m.2.1, m.2.2) :=
        scanIter_sound (matchLevelAt plantStressSpec.words t) _ _ m hmem
      have hrange := matchLevelAt_lt_length (str "Plant") [str "Stress"] t m.1
        (by decide) _ hsound
      have hctx := h1 m.1 hrange (by rw [hsound]; rfl)
      have hguard2 : passGuard plantStressSpec t m.1 = true := hguard
      unfold passGuard at hguard2
      simp only [plantStressSpec] at hguard2
      simp only [List.any_cons, List.any_nil, Bool.or_false, Bool.not_eq_true'] at hguard2
      rw [hctx] at hguard2
      exact absurd hguard2 (by decide)
  · obtain ⟨p0, hp0, hm0⟩ := h2
    have hfm : filteredMatches potentialSpec t =
        scanIter (matchLevelAt potentialSpec.words t) 0 (t.length + 1) := by
      unfold filteredMatches
      apply List.filter_eq_self.mpr
      intro m hm
      rfl
    have hnonempty : filteredMatches potentialSpec t ≠ [] := by
      rw [hfm]
      intro hnil
      have hnone := scanIter_nil (matchLevelAt potentialSpec.words t) _ _ hnil p0
        (Nat.zero_le _) (by omega)
      have : matchLevelAt [str "Potential", str "Plant", str "Stress"] t p0 = none := hnone
      rw [this] at hm0
      simp at hm0
    obtain ⟨m0, rest, hrest⟩ := List.exists_cons_of_ne_nil hnonempty
    obtain ⟨a0, b0, c1, c2⟩ := m0
    have hmem0 : (a0, b0, c1, c2) ∈
        scanIter (matchLevelAt potentialSpec.words t) 0 (t.length + 1) := by
      rw [← hfm, hrest]
      exact List.mem_cons_self _ _
    have hsound0 : matchLevelAt [str "Potential", str "Plant", str "Stress"] t a0 =
        some (b0, c1, c2) :=
      scanIter_sound (matchLevelAt potentialSpec.words t) _ _ (a0, b0, c1, c2) hmem0
    have hrange0 := matchLevelAt_lt_length (str "Potential") [str "Plant", str "Stress"]
      t a0 (by decide) _ hsound0
    have hparse := h3 a0 hrange0
    rw [hsound0] at hparse
    simp only [Option.all_some, Bool.and_eq_true, Option.isSome_iff_exists] at hparse
    obtain ⟨⟨v1, hv1⟩, v2, hv2⟩ := hparse
    have hseenF : ∀ k ∈ (processMatches fineSpec.name fineSpec.severity
        (filteredMatches fineSpec t) []).2, ∃ d1 d2, k = entryKey (str "Fine") d1 d2 := by
      intro k hk
      rcases processMatches_keys _ _ _ _ _ hk with hmem | hform
      · simp at hmem
      · exact hform
    have hfresh : ((processMatches fineSpec.name fineSpec.severity
        (filteredMatches fineSpec t) []).2).contains
          (entryKey (str "Potential Plant Stress") c1 c2) = false := by
      by_contra hc
      rw [Bool.not_eq_false] at hc
      obtain ⟨d1, d2, heq⟩ := hseenF _ (List.elem_iff.mp hc)
      have hhead := congrArg List.head? heq
      have hP : (entryKey (str "Potential Plant Stress") c1 c2).head? = some 'P' := rfl
      have hF : (entryKey (str "Fine") d1 d2).head? = some 'F' := rfl
      rw [hP, hF] at hhead
      simp at hhead
    refine ⟨⟨str "Potential Plant Stress", .moderate, v1, v2⟩, ?_, rfl, rfl⟩
    have hstep : ∀ (s : LevelSpec) (ss : List LevelSpec) (seen : List (List Char)),
        (goSpecs (s :: ss) seen t).1 =
          (processMatches s.name s.severity (filteredMatches s t) seen).1 ++
          (goSpecs ss (processMatches s.name s.severity (filteredMatches s t) seen).2 t).1 :=
      fun _ _ _ => rfl
    unfold extractLevels
    rw [hcfg, hstep, hstep]
    apply List.mem_append.mpr
    right
    apply List.mem_append.mpr
    left
    have hemit := processMatches_head_emit (str "Potential Plant Stress") .moderate
      a0 b0 c1 c2 rest
      ((processMatches fineSpec.name fineSpec.severity (filteredMatches fineSpec t) []).2)
      v1 v2 hfresh hv1 hv2
    have hname : potentialSpec.name = str "Potential Plant Stress" := rfl
    have hsv : potentialSpec.severity = Severity.moderate := rfl
    rw [hname, hsv, hrest]
    exact hemit

/-- Witness for C4 at the text `Potential Plant Stress 10% 2.0`. -/
theorem c4_exclusion_guard_witness :
    (∀ e ∈ extractLevels plantStressConfig (str "Potential Plant Stress 10% 2.0"),
      e.severity ≠ .high) ∧
    (∃ e ∈ extractLevels plantStressConfig (str "Potential Plant Stress 10% 2.0"),
      e.level = str "Potential Plant Stress" ∧ e.severity = .moderate) :=
  c4_exclusion_guard (str "Potential Plant Stress 10% 2.0") (by decide) (by decide) (by decide)

/-- Applying a two-capture match preserves non-negativity of the percent
component (the only new percent value is a parsed `[\d.]+` capture). -/
theorem applyHaEqCaps_pct (st : TotalState) (c1 c2 : List Char)
    (h : ∀ q, st.2 = some q → 0 ≤ q.toRat) :
    ∀ q, (applyHaEqCaps st c1 c2).1.2 = some q → 0 ≤ q.toRat := by
  intro q hq
  unfold applyHaEqCaps at hq
  cases hp1 : parseFloat c1 with
  | none => rw [hp1] at hq; exact h q hq
  | some v1 =>
    rw [hp1] at hq
    cases hp2 : parseFloat c2 with
    | none => rw [hp2] at hq; exact h q hq
    | some v2 =>
      rw [hp2] at hq
      have hq2 : some v2 = some q := hq
      obtain rfl : v2 = q := Option.some_inj.mp hq2
      exact parseFloat_nonneg c2 _ hp2

/-- Applying a percent-capture match preserves non-negativity of the
percent component. -/
theorem applyPctCap_pct (st : TotalState) (c : List Char)
    (h : ∀ q, st.2 = some q → 0 ≤ q.toRat) :
    ∀ q, (applyPctCap st c).1.2 = some q → 0 ≤ q.toRat := by
  intro q hq
  unfold applyPctCap at hq
  cases hp : parseFloat c with
  | none => rw [hp] at hq; exact h q hq
  | some v =>
    rw [hp] at hq
    have hq2 : some v = some q := hq
    obtain rfl : v = q := Option.some_inj.mp hq2
    exact parseFloat_nonneg c _ hp

/-- Step 1 preserves non-negativity of the percent component. -/
theorem totalStep1_pct (st : TotalState) (txt : List Char)
    (h : ∀ q, st.2 = some q → 0 ≤ q.toRat) :
    ∀ q, (totalStep1 st txt).1.2 = some q → 0 ≤ q.toRat := by
  intro q hq
  unfold totalStep1 at hq
  cases hs : scanFirst (haEqPctAt txt) 0 (txt.length + 1) with
  | none => rw [hs] at hq; exact h q hq
  | some v =>
    obtain ⟨i, e, c1, c2⟩ := v
    rw [hs] at hq
    exact applyHaEqCaps_pct st c1 c2 h q hq

/-- Step 2 preserves non-negativity of the percent component. -/
theorem totalStep2_pct (st : TotalState) (txt : List Char)
    (h : ∀ q, st.2 = some q → 0 ≤ q.toRat) :
    ∀ q, (totalStep2 st txt).1.2 = some q → 0 ≤ q.toRat := by
  intro q hq
  unfold totalStep2 at hq
  cases hs : scanFirst (pctFieldAt txt) 0 (txt.length + 1) with
  | none => rw [hs] at hq; exact h q hq
  | some v =>
    obtain ⟨i, e, c⟩ := v
    rw [hs] at hq
    exact applyPctCap_pct st c h q hq

/-- The whole-text fallback preserves non-negativity of the percent. -/
theorem totalFallback_pct (st : TotalState) (lowerT : List Char)
    (h : ∀ q, st.2 = some q → 0 ≤ q.toRat) :
    ∀ q, (totalFallback st lowerT).2 = some q → 0 ≤ q.toRat := by
  intro q hq
  unfold totalFallback at hq
  by_cases hb : (totalStep1 st lowerT).2 = true
  · rw [if_pos hb] at hq
    exact totalStep1_pct st lowerT h q hq
  · rw [if_neg hb] at hq
    exact totalStep2_pct _ lowerT (totalStep1_pct st lowerT h) q hq

/-- Whenever the total-area rule sets the percent, the value is a parsed
capture and hence non-negative. -/
theorem extractTotalArea_pct (cfgO : Option AConfig) (lowerT : List Char) :
    ∀ q, (extractTotalArea cfgO lowerT).2 = some q → 0 ≤ q.toRat := by
  intro q hq
  unfold extractTotalArea at hq
  cases cfgO with
  | none => exact absurd hq (by simp)
  | some cfg =>
    simp only [] at hq
    have hinit : ∀ r, ((none, none) : TotalState).2 = some r → 0 ≤ r.toRat := by
      intro r hr; exact absurd hr (by simp)
    cases hf : findSub lowerT cfg.totalLabel with
    | none =>
      rw [hf] at hq
      exact totalFallback_pct _ _ hinit q hq
    | some p =>
      rw [hf] at hq
      simp only [] at hq
      by_cases h1 : (totalStep1 (none, none) (sliceStr lowerT p 200)).2 = true
      · rw [if_pos h1] at hq
        exact totalStep1_pct _ _ hinit q hq
      · rw [if_neg h1] at hq
        have hst1 := totalStep1_pct (none, none) (sliceStr lowerT p 200) hinit
        by_cases h2 : (totalStep2 (totalStep1 (none, none) (sliceStr lowerT p 200)).1
            (sliceStr lowerT p 200)).2 = true
        · rw [if_pos h2] at hq
          exact totalStep2_pct _ _ hst1 q hq
        · rw [if_neg h2] at hq
          have hst2 := totalStep2_pct _ (sliceStr lowerT p 200) hst1
          by_cases h3 : (totalStep2 (totalStep2 (totalStep1 (none, none)
              (sliceStr lowerT p 200)).1 (sliceStr lowerT p 200)).1
              (sliceStr lowerT (p - 100) (min 100 p))).2 = true
          · rw [if_pos h3] at hq
            exact totalStep2_pct _ _ hst2 q hq
          · rw [if_neg h3] at hq
            exact totalFallback_pct _ _ (totalStep2_pct _ _ hst2) q hq

/-- Every emitted level entry has non-negative parsed numeric fields. -/
theorem extractLevels_nonneg (cfg : AConfig) (t : List Char) :
    ∀ e ∈ extractLevels cfg t, 0 ≤ e.percentage.toRat ∧ 0 ≤ e.area_hectares.toRat := by
  intro e he
  obtain ⟨s, _, _, _, m, _, hp1, hp2⟩ := mem_goSpecs t cfg.levels [] e he
  exact ⟨parseFloat_nonneg _ _ hp1, parseFloat_nonneg _ _ hp2⟩

/-- The reconciler never writes the percent component. -/
theorem calcTotal_pct (a : Option AType) (w : WeedSec) :
    (calcTotal a w).total_area_percent = w.total_area_percent := by
  unfold calcTotal
  split
  · split <;> (dsimp only; split <;> rfl)
  · rfl

/-- The reconciler never changes the level list. -/
theorem calcTotal_levels (a : Option AType) (w : WeedSec) :
    (calcTotal a w).levels = w.levels := by
  unfold calcTotal
  split
  · split <;> (dsimp only; split <;> rfl)
  · rfl

/-- C6 amended: every percent value the pipeline stores — the total-area
percent and every level entry's percentage (and hectares) — is
non-negative; no upper bound of 100 is enforced by the code. -/
theorem c6_amended (bs : List (List Char)) :
    (∀ q, (pipeline bs).weed_analysis.total_area_percent = some q → 0 ≤ q.toRat) ∧
    (∀ e ∈ (pipeline bs).weed_analysis.levels,
      0 ≤ e.percentage.toRat ∧ 0 ≤ e.area_hectares.toRat) := by
  have hw : (pipeline bs).weed_analysis =
      calcTotal (parsePage1 bs).report.detected_analysis_type (parsePage1 bs).weed_analysis :=
    rfl
  constructor
  · intro q hq
    rw [hw, calcTotal_pct] at hq
    have hq2 : (extractTotalArea ((detect (fullTextOf bs)).map (fun d => d.2))
        (strLower (spacedOf bs))).2 = some q := hq
    exact extractTotalArea_pct _ _ q hq2
  · intro e he
    rw [hw, calcTotal_levels] at he
    cases hd : detect (fullTextOf bs) with
    | none =>
      have hnil : (parsePage1 bs).weed_analysis.levels = [] := by
        show (match (detect (fullTextOf bs)).map (fun d => d.2) with
          | some cfg => extractLevels cfg (spacedOf bs)
          | none => []) = []
        rw [hd]
        rfl
      rw [hnil] at he
      simp at he
    | some d =>
      have hsome : (parsePage1 bs).weed_analysis.levels = extractLevels d.2 (spacedOf bs) := by
        show (match (detect (fullTextOf bs)).map (fun dd => dd.2) with
          | some cfg => extractLevels cfg (spacedOf bs)
          | none => []) = _
        rw [hd]
        rfl
      rw [hsome] at he
      exact extractLevels_nonneg _ _ e he

/-- Witness for C6 amended: the percent stored for the example text is 69
and indeed non-negative. -/
theorem c6_amended_witness : 0 ≤ Frac.toRat ⟨69, 0⟩ :=
  (c6_amended [canonText]).1 ⟨69, 0⟩ (by decide)
